import Mathlib

/-!
Shallow embedding of the source-correlation layer of the ssa package
(`source.go`): locating the IR function enclosing a syntax node, and
resolving semantic objects or expressions to IR values.

Source positions (`token.Pos`) are modelled as `Nat`; pointer identity of
semantic objects and expressions is modelled by numeric ids.
-/

namespace SsaSource

/-- A source position, `token.Pos`. -/
abbrev Pos := Nat

/-- The `go/token` declaration tokens a `GenDecl` can carry. -/
inductive Tok where
  | var
  | constTok
  | typeTok
  | importTok
  deriving DecidableEq, Repr

/-- The `ast.Node` variants `source.go` inspects.  A `funcLit` carries
`lit.Type.Func`, the position of its `func` keyword; a `funcDecl` carries
whether `Recv` is non-nil, `Name.Name` and `Name.NamePos`; an `ident`
carries `NamePos`.  Every other node kind is `other` (or `file` for the
file root). -/
inductive Node where
  | funcLit (pos : Pos)
  | genDecl (tok : Tok)
  | funcDecl (hasRecv : Bool) (name : String) (namePos : Pos)
  | ident (pos : Pos)
  | file
  | other
  deriving DecidableEq, Repr

/-- An `ast.Expr` with pointer identity: `atom id` is any non-paren
expression (distinct `id`s model distinct pointers), `paren e` is
`*ast.ParenExpr` around `e`. -/
inductive Expr where
  | paren (e : Expr)
  | atom (id : Nat)
  deriving DecidableEq, Repr

/-- Modelled from the spec: normalize an expression by stripping redundant
parenthesization (the source's `unparen` helper, defined outside this
file's code). -/
def unparen : Expr → Expr
  | .paren e => unparen e
  | .atom id => .atom id

/-- A constant value: `NewConst(val, typ)` pairs an `exact.Value` literal
with a `types.Type`, both modelled as ids. -/
structure ConstV where
  val : Nat
  ty : Nat
  deriving DecidableEq, Repr

/-- Modelled from the spec: synthesize a fresh `Const` value from a literal
and a type (the source's `NewConst`, defined outside this file's code). -/
def NewConst (val ty : Nat) : ConstV := ⟨val, ty⟩

/-- A `*ssa.Parameter`: it records the `types.Var` object (by id) it was
created for, which `VarValue` compares with `param.Object() == obj`. -/
structure Param where
  objId : Nat
  deriving DecidableEq, Repr

mutual
/-- An `ssa.Function`: declared position (`Pos()`), the per-function
debug-info flag (the source's `f.debugInfo()`), whether it is a
compiler-synthesized function such as an interface-method wrapper
(`Synthetic != ""`), `Params`, `Blocks` and `AnonFuncs`. -/
inductive Function where
  | mk (pos : Pos) (debug : Bool) (synthetic : Bool)
       (params : List Param) (blocks : List Block) (anonFuncs : List Function)

/-- An `ssa.BasicBlock`: its instruction list. -/
inductive Block where
  | mk (instrs : List Instr)

/-- An `ssa.Instruction`: only `*ssa.DebugRef` (expression pointer, source
position, value) is distinguished; every other instruction is `other`. -/
inductive Instr where
  | debugRef (expr : Expr) (pos : Pos) (x : Value)
  | other

/-- An `ssa.Value`: the variants the queries can return. -/
inductive Value where
  | const (c : ConstV)
  | global (id : Nat)
  | function (f : Function)
  | builtin (id : Nat)
  | param (p : Param)
  | instrVal (id : Nat)
end

def Function.pos : Function → Pos
  | .mk p _ _ _ _ _ => p

def Function.debugInfo : Function → Bool
  | .mk _ d _ _ _ _ => d

def Function.synthetic : Function → Bool
  | .mk _ _ s _ _ _ => s

def Function.params : Function → List Param
  | .mk _ _ _ ps _ _ => ps

def Function.blocks : Function → List Block
  | .mk _ _ _ _ bs _ => bs

def Function.anonFuncs : Function → List Function
  | .mk _ _ _ _ _ as₀ => as₀

def Block.instrs : Block → List Instr
  | .mk is₀ => is₀

/-- A `*types.Func` object: identity, declared position (`Pos()`), `Name()`,
owning package (`Pkg()`, `none` for universal objects) and the receiver's
type (`recvType(obj)`, as a type id). -/
structure FuncObj where
  objId : Nat
  pos : Pos
  name : String
  pkgId : Option Nat
  recvTy : Nat
  deriving DecidableEq, Repr

/-- A `*types.Const` object: identity, whether `Parent() == types.Universe`,
owning package, and its `Val()` and `Type()`. -/
structure ConstObj where
  objId : Nat
  inUniverse : Bool
  pkgId : Option Nat
  val : Nat
  ty : Nat
  deriving DecidableEq, Repr

/-- A `*types.Var` object: identity, declared position and owning package. -/
structure VarObj where
  objId : Nat
  pos : Pos
  pkgId : Option Nat
  deriving DecidableEq, Repr

/-- A package-level `*ssa.Type` member, carrying the method set of the
pointer-to-type (`types.NewPointer(mem.Type()).MethodSet()`): the list of
*declared* `*types.Func` objects reachable through its bindings
(`mset.At(i).Obj()`). -/
structure TypeMem where
  methodSet : List FuncObj
  deriving Repr

/-- A package `Member`: only `*ssa.Function` and `*ssa.Type` are
distinguished by `findNamedFunc`; `*ssa.Global` and `*ssa.NamedConst`
members are `other`. -/
inductive Member where
  | function (f : Function)
  | type (t : TypeMem)
  | other

/-- An `ssa.Package`: its synthesized `init` function, its `Members`, and
the `values` table from package-level semantic objects (by id) to the
`Value`s built for them. -/
structure Package where
  init : Function
  members : List Member
  values : List (Nat × Value)

/-- Modelled from the spec: a resolved method binding of a method set, as
`MethodSet().Lookup(pkg, name)` returns it, paired with the `Value` that
`Program.Method` resolves it to (the declared method's function, or a
wrapper constructed on demand). -/
structure MethodBinding where
  pkgId : Option Nat
  name : String
  fn : Value

/-- An `ssa.Program`: packages keyed by semantic package id, the table of
universal built-ins keyed by `*types.Func` object id, and the per-type
method sets used by `FuncValue`'s interface-method fallback. -/
structure Program where
  packages : List (Nat × Package)
  builtins : List (Nat × Value)
  methodSets : List (Nat × List MethodBinding)

/-- `findNamedFunc` returns the named function whose `FuncDecl.Ident` is at
position `pos`, scanning all package members and the method sets of named
types.  The bindings are inspected through their declared objects
(never through `Program.Method`, which would create wrappers); a matching
object is mapped to its function through the package's `values` table
(the source's `pkg.values[obj].(*Function)` assertion; a value that is
missing or not a `Function` there is a fault in the source, modelled as
`none`). -/
def findNamedFunc (pkg : Package) (pos : Pos) : Option Function :=
  go pkg.members
where
  go : List Member → Option Function
  | [] => none
  | Member.function f :: rest =>
      if f.pos = pos then some f else go rest
  | Member.type t :: rest =>
      match t.methodSet.find? (fun o => o.pos == pos) with
      | some o =>
          match pkg.values.lookup o.objId with
          | some (Value.function f) => some f
          | _ => none
      | none => go rest
  | Member.other :: rest => go rest

/-- `findEnclosingPackageLevelFunction` returns the package-level function
enclosing `path` (the ancestor chain, target first, file root last): a
package-level `var` initializer or an explicit `init` declaration maps to
`pkg.init`; any other function/method declaration is resolved with
`findNamedFunc` at its name's position. -/
def findEnclosingPackageLevelFunction (pkg : Package) (path : List Node) :
    Option Function :=
  match path.reverse with
  | _ :: parent :: rest =>
      match parent with
      | Node.genDecl tok =>
          if tok = Tok.var ∧ rest ≠ [] then some pkg.init else none
      | Node.funcDecl hasRecv name namePos =>
          if hasRecv = false ∧ name = "init" then some pkg.init
          else findNamedFunc pkg namePos
      | _ => none
  | _ => none

/-- The descent of `EnclosingFunction` over the reversed chain (file root
first): each `FuncLit` encountered is looked up among the current
function's `AnonFuncs` by position; a miss makes the whole walk fail. -/
def walk (fn : Function) : List Node → Option Function
  | [] => some fn
  | Node.funcLit p :: rest =>
      match fn.anonFuncs.find? (fun a => a.pos == p) with
      | some anon => walk anon rest
      | none => none
  | _ :: rest => walk fn rest

/-- `EnclosingFunction` returns the function that contains the syntax node
denoted by `path`: the package-level function first, then a walk down the
nested anonymous functions.  `none` when the node is not in any function
or an anonymous function's IR has not been built. -/
def EnclosingFunction (pkg : Package) (path : List Node) : Option Function :=
  match findEnclosingPackageLevelFunction pkg path with
  | none => none
  | some fn => walk fn path.reverse

/-- `HasEnclosingFunction` returns whether the node denoted by `path` is
contained in the declaration of some function or package-level variable. -/
def HasEnclosingFunction (pkg : Package) (path : List Node) : Bool :=
  (findEnclosingPackageLevelFunction pkg path).isSome

/-- First `DebugRef` in an instruction list whose `Expr` pointer equals
`e`; returns its `X`. -/
def findRefExprInstrs : List Instr → Expr → Option Value
  | [], _ => none
  | Instr.debugRef ex _ x :: rest, e =>
      if ex = e then some x else findRefExprInstrs rest e
  | Instr.other :: rest, e => findRefExprInstrs rest e

/-- First `DebugRef` in a function's blocks whose `Expr` pointer equals
`e`. -/
def findRefExprBlocks : List Block → Expr → Option Value
  | [], _ => none
  | b :: rest, e =>
      match findRefExprInstrs b.instrs e with
      | some v => some v
      | none => findRefExprBlocks rest e

/-- `Function.ValueForExpr` returns the SSA value corresponding to the
non-constant expression `e`: with debug info, the linear scan of every
`DebugRef` of every block for the unparenthesized `e`; without debug info,
always `none`. -/
def Function.ValueForExpr (f : Function) (e : Expr) : Option Value :=
  if f.debugInfo then findRefExprBlocks f.blocks (unparen e) else none

/-- `Program.packageLevelValue` returns the package-level value for the
named object: a lookup of the owning package (a universal object, with no
owning package, finds none), then of the object in its `values` table. -/
def Program.packageLevelValue (prog : Program) (pkgId : Option Nat)
    (objId : Nat) : Option Value :=
  match pkgId.bind (fun k => prog.packages.lookup k) with
  | some pkg => pkg.values.lookup objId
  | none => none

/-- The method set the program associates with a type id (spec §4.3(b):
the receiver type's method set, computed on demand and cached). -/
def Program.methodSetOf (prog : Program) (ty : Nat) : List MethodBinding :=
  (prog.methodSets.lookup ty).getD []

/-- Modelled from the spec: `MethodSet().Lookup(pkg, name)` finds the
method binding for a package/name pair (the source's helper is outside
this file's code). -/
def msetLookup (ms : List MethodBinding) (pkgId : Option Nat)
    (name : String) : Option MethodBinding :=
  ms.find? (fun b => b.pkgId == pkgId && b.name == name)

/-- Modelled from the spec: `Program.Method` resolves a method binding to
its value, constructing a wrapper on demand; it yields nothing only when
there is no binding (the source's `Program.Method` is outside this file's
code). -/
def Program.Method (_prog : Program) (sel : Option MethodBinding) :
    Option Value :=
  sel.map (fun b => b.fn)

/-- `Program.FuncValue` returns the SSA value denoted by the source-level
named function `obj`: a universal built-in, a package-level function or
declared method, or an interface-method binding resolved through the
receiver type's method set. -/
def Program.FuncValue (prog : Program) (obj : FuncObj) : Option Value :=
  match prog.builtins.lookup obj.objId with
  | some v => some v
  | none =>
      match prog.packageLevelValue obj.pkgId obj.objId with
      | some v => some v
      | none =>
          prog.Method (msetLookup (prog.methodSetOf obj.recvTy)
            obj.pkgId obj.name)

/-- `Program.ConstValue` returns the SSA value denoted by the source-level
named constant `obj`: a fresh `Const` for universal constants, the cached
package-level value when present (the source's `v.(*Const)` assertion; a
non-`Const` value there is a fault in the source, modelled as `none`), and
otherwise a fresh `Const` again. -/
def Program.ConstValue (prog : Program) (obj : ConstObj) : Option ConstV :=
  if obj.inUniverse then some (NewConst obj.val obj.ty)
  else
    match prog.packageLevelValue obj.pkgId obj.objId with
    | some (Value.const c) => some c
    | some _ => none
    | none => some (NewConst obj.val obj.ty)

/-- First `DebugRef` in an instruction list whose position equals `p`;
returns its `X`. -/
def findRefPosInstrs : List Instr → Pos → Option Value
  | [], _ => none
  | Instr.debugRef _ rp x :: rest, p =>
      if rp = p then some x else findRefPosInstrs rest p
  | Instr.other :: rest, p => findRefPosInstrs rest p

/-- First `DebugRef` in a function's blocks whose position equals `p`. -/
def findRefPosBlocks : List Block → Pos → Option Value
  | [], _ => none
  | b :: rest, p =>
      match findRefPosInstrs b.instrs p with
      | some v => some v
      | none => findRefPosBlocks rest p

/-- `Program.VarValue` returns the SSA value corresponding to the
identifier at the head of `ref` denoting the variable `obj`.  The head of
`ref` is asserted to be an identifier (`ref[0].(*ast.Ident)`): any other
chain is a fault, `Except.error ()`, as is a package-level value that is
not a `Global` (the source's `v.(*Global)` assertion).  Otherwise the
package-level global, the defining parameter, or the `DebugRef` at the
identifier's position, with absence as `Except.ok none`. -/
def Program.VarValue (prog : Program) (obj : VarObj) (pkg : Package)
    (ref : List Node) : Except Unit (Option Value) :=
  match ref with
  | Node.ident idPos :: _ =>
      match prog.packageLevelValue obj.pkgId obj.objId with
      | some (Value.global g) => .ok (some (Value.global g))
      | some _ => .error ()
      | none =>
          match EnclosingFunction pkg ref with
          | none => .ok none
          | some fn =>
              match (if idPos = obj.pos then
                      fn.params.find? (fun p => p.objId == obj.objId)
                    else none) with
              | some p => .ok (some (Value.param p))
              | none =>
                  match findRefPosBlocks fn.blocks idPos with
                  | some v => .ok (some v)
                  | none => .ok none
  | _ => .error ()

/-- The spec's syntax-only classification of an ancestor chain (§4.1):
which top-level declaration encloses the node. -/
inductive Classification where
  | packageInitializer
  | namedDeclaration (namePos : Pos)
  | noneCls
  deriving DecidableEq, Repr

/-- `ClassifyEnclosingTopLevel` follows the spec's words (§4.1), stated for
comparison with the source's `HasEnclosingFunction`: the chain's
second-to-last node decides between a package initializer (file-scope
variable group of a chain of length at least three, or a receiverless
declaration named `init`), a named declaration carrying its name position,
and no enclosing declaration at all. -/
def ClassifyEnclosingTopLevel (chain : List Node) : Classification :=
  match chain.reverse with
  | _ :: parent :: rest =>
      match parent with
      | Node.genDecl tok =>
          if tok = Tok.var ∧ rest ≠ [] then Classification.packageInitializer
          else Classification.noneCls
      | Node.funcDecl hasRecv name namePos =>
          if hasRecv = false ∧ name = "init" then
            Classification.packageInitializer
          else Classification.namedDeclaration namePos
      | _ => Classification.noneCls
  | _ => Classification.noneCls

/-! ### Concrete example data -/

/-- A bodiless function at position 0, used as a package initializer. -/
def initFn : Function := .mk 0 false false [] [] []

/-- An anonymous function declared at position 10. -/
def anonW : Function := .mk 10 false false [] [] []

/-- A top-level function at position 5 with `anonW` among its `AnonFuncs`. -/
def topFnW : Function := .mk 5 false false [] [] [anonW]

/-- A package declaring only `topFnW`. -/
def pkgW : Package := ⟨initFn, [Member.function topFnW], []⟩

/-- An ancestor chain through the function literal at position 10 inside
the declaration of `topFnW`. -/
def pathW : List Node :=
  [Node.ident 12, Node.funcLit 10, Node.funcDecl false "f" 5, Node.file]

/-- A package with no members and no built values. -/
def pkgEmpty : Package := ⟨initFn, [], []⟩

/-- A chain sitting under a receiverless named declaration `f`. -/
def chainNamed : List Node :=
  [Node.ident 1, Node.funcDecl false "f" 5, Node.file]

/-- A non-paren expression with pointer id 3. -/
def exprA : Expr := .atom 3

/-- The value an example `DebugRef` carries. -/
def valA : Value := .instrVal 7

/-- A debug-enabled function with one `DebugRef` for `exprA` at
position 21. -/
def debugFnW : Function :=
  .mk 20 true false [] [Block.mk [Instr.debugRef exprA 21 valA]] []

/-- A program with no packages, built-ins or method sets. -/
def progEmpty : Program := ⟨[], [], []⟩

/-- A universal constant object (id 1) with literal 4 and type 2. -/
def constObjW : ConstObj := ⟨1, true, none, 4, 2⟩

/-- A method object (id 9) of an unbuilt package 1, named `m`, on
receiver type 0. -/
def funcObjW : FuncObj := ⟨9, 3, "m", some 1, 0⟩

/-- A function-local variable object (id 5) declared at position 30,
with no owning package entry. -/
def objLocal : VarObj := ⟨5, 30, none⟩

/-- A nonempty ancestor chain whose head is not an identifier. -/
def refBad : List Node := [Node.funcLit 1, Node.file]

/-- A package-level variable object (id 6) of package 1. -/
def objGlobal : VarObj := ⟨6, 2, some 1⟩

/-- A package whose `values` table binds object 6 to a `Global`. -/
def pkgBuilt : Package := ⟨initFn, [], [(6, Value.global 6)]⟩

/-- A program owning `pkgBuilt` as package 1. -/
def progBuilt : Program := ⟨[(1, pkgBuilt)], [], []⟩

/-- A declared method object (id 40) at position 50, named `m`, of
package 1, on receiver type 7. -/
def methObjW : FuncObj := ⟨40, 50, "m", some 1, 7⟩

/-- The declared (non-synthetic) function of the method `methObjW`. -/
def methFnW : Function := .mk 50 false false [] [] []

/-- A type member whose pointer method set holds `methObjW`. -/
def typeMemW : TypeMem := ⟨[methObjW]⟩

/-- A package with one type member and a `values` binding from the
declared method object to `methFnW`. -/
def pkgMeth : Package :=
  ⟨initFn, [Member.type typeMemW], [(40, Value.function methFnW)]⟩

/-- A chain under the method declaration of `m` (with receiver) at
position 50. -/
def chainMeth : List Node := [Node.other, Node.funcDecl true "m" 50, Node.file]

/-! ### Lemmas about the descent over the reversed chain -/

theorem walk_cons_funcLit (fn : Function) (p : Pos) (rest : List Node) :
    walk fn (Node.funcLit p :: rest) =
      match fn.anonFuncs.find? (fun a => a.pos == p) with
      | some anon => walk anon rest
      | none => none := rfl

theorem walk_cons_other (fn : Function) (n : Node) (rest : List Node)
    (h : ∀ p, n ≠ Node.funcLit p) : walk fn (n :: rest) = walk fn rest := by
  cases n
  case funcLit p => exact absurd rfl (h p)
  all_goals rfl

theorem walk_append (l₁ l₂ : List Node) :
    ∀ fn, walk fn (l₁ ++ l₂) = (walk fn l₁).bind fun g => walk g l₂ := by
  induction l₁ with
  | nil => intro fn; rfl
  | cons n rest ih =>
      intro fn
      by_cases hn : ∃ p, n = Node.funcLit p
      · obtain ⟨p, rfl⟩ := hn
        rw [List.cons_append, walk_cons_funcLit, walk_cons_funcLit]
        cases hf : fn.anonFuncs.find? (fun a => a.pos == p) with
        | some anon => exact ih anon
        | none => rfl
      · push_neg at hn
        rw [List.cons_append, walk_cons_other fn n _ hn,
          walk_cons_other fn n _ hn, ih fn]

theorem walk_noLit : ∀ (l : List Node) (fn : Function),
    (∀ p, Node.funcLit p ∉ l) → walk fn l = some fn := by
  intro l
  induction l with
  | nil => intro fn _; rfl
  | cons n rest ih =>
      intro fn h
      have hn : ∀ p, n ≠ Node.funcLit p := by
        intro p hp
        exact h p (by rw [← hp]; exact List.mem_cons_self n rest)
      rw [walk_cons_other fn n rest hn]
      exact ih fn (fun p hp => h p (List.mem_cons_of_mem n hp))

/-- C1: with the package-level function resolved, the walk down the chain's
function literals fails (returns `none`, never an outer function) as soon
as one literal has no `AnonFuncs` entry at its position, and when every
literal is matched the result is the function matched at the innermost
literal. -/
theorem enclosingFunction_literal_descent (pkg : Package) (path : List Node)
    (fn₀ : Function)
    (h₀ : findEnclosingPackageLevelFunction pkg path = some fn₀) :
    (∀ pre p suf fn, path.reverse = pre ++ Node.funcLit p :: suf →
        walk fn₀ pre = some fn →
        (∀ a ∈ fn.anonFuncs, a.pos ≠ p) →
        EnclosingFunction pkg path = none) ∧
    (∀ pre p suf fn g, path.reverse = pre ++ Node.funcLit p :: suf →
        (∀ q, Node.funcLit q ∉ suf) →
        walk fn₀ pre = some fn →
        fn.anonFuncs.find? (fun a => a.pos == p) = some g →
        EnclosingFunction pkg path = some g) := by
  have hEF : EnclosingFunction pkg path = walk fn₀ path.reverse := by
    unfold EnclosingFunction
    rw [h₀]
  constructor
  · intro pre p suf fn hdec hpre hmiss
    rw [hEF, hdec, walk_append, hpre]
    have hfind : fn.anonFuncs.find? (fun a => a.pos == p) = none := by
      rw [List.find?_eq_none]
      intro a ha
      simpa using hmiss a ha
    show walk fn (Node.funcLit p :: suf) = none
    rw [walk_cons_funcLit, hfind]
  · intro pre p suf fn g hdec hnl hpre hfind
    rw [hEF, hdec, walk_append, hpre]
    show walk fn (Node.funcLit p :: suf) = some g
    rw [walk_cons_funcLit, hfind]
    exact walk_noLit suf g hnl

/-- C1 witness: in `pkgW`, the chain `pathW` through the literal at
position 10 resolves to `anonW`, the innermost matched function. -/
theorem enclosingFunction_literal_descent_witness :
    EnclosingFunction pkgW pathW = some anonW :=
  (enclosingFunction_literal_descent pkgW pathW topFnW rfl).2
    [Node.file, Node.funcDecl false "f" 5] 10 [Node.ident 12] topFnW anonW
    rfl (by intro q hq; simp at hq) rfl rfl

/-- C2 counterexample: the chain `chainNamed` sits under a receiverless
named declaration, so its syntax-only classification is not "none", yet
`HasEnclosingFunction` is false for a package with no members — the result
does depend on the package's contents. -/
theorem hasEnclosing_classification_cex :
    ClassifyEnclosingTopLevel chainNamed ≠ Classification.noneCls ∧
    HasEnclosingFunction pkgEmpty chainNamed = false := by
  constructor
  · decide
  · rfl

/-- C2 amended: `HasEnclosingFunction` is true iff the chain classifies as
a package initializer, or classifies as a named declaration at a position
at which `findNamedFunc` finds a function among the package's members. -/
theorem hasEnclosingFunction_iff_classification (pkg : Package)
    (chain : List Node) :
    HasEnclosingFunction pkg chain = true ↔
      (ClassifyEnclosingTopLevel chain = Classification.packageInitializer ∨
        ∃ p, ClassifyEnclosingTopLevel chain =
              Classification.namedDeclaration p ∧
          (findNamedFunc pkg p).isSome = true) := by
  unfold HasEnclosingFunction findEnclosingPackageLevelFunction
    ClassifyEnclosingTopLevel
  cases hrev : chain.reverse with
  | nil => simp
  | cons a tail =>
    cases tail with
    | nil => simp
    | cons parent rest =>
      cases parent with
      | genDecl tok =>
          by_cases h : tok = Tok.var ∧ rest ≠ []
          · simp [h]
          · simp [h]
      | funcDecl hasRecv name namePos =>
          by_cases h : hasRecv = false ∧ name = "init"
          · simp [h]
          · simp [h]
      | funcLit p => simp
      | ident p => simp
      | file => simp
      | other => simp

/-- C3: when `HasEnclosingFunction` is false, `EnclosingFunction` returns
"not found" for the same package and chain. -/
theorem hasEnclosingFunction_false_not_found (pkg : Package)
    (path : List Node) (h : HasEnclosingFunction pkg path = false) :
    EnclosingFunction pkg path = none := by
  unfold HasEnclosingFunction at h
  unfold EnclosingFunction
  cases hf : findEnclosingPackageLevelFunction pkg path with
  | none => rfl
  | some fn =>
      rw [hf] at h
      simp at h

/-- C3 witness: the chain `chainNamed` has no enclosing function in the
empty package, and `EnclosingFunction` indeed returns `none` there. -/
theorem hasEnclosingFunction_false_not_found_witness :
    EnclosingFunction pkgEmpty chainNamed = none :=
  hasEnclosingFunction_false_not_found pkgEmpty chainNamed rfl

/-! ### Lemmas about the debug-reference scan by expression -/

theorem findRefExprInstrs_some {is : List Instr} {e : Expr} {v : Value}
    (h : findRefExprInstrs is e = some v) :
    ∃ p, Instr.debugRef e p v ∈ is := by
  induction is with
  | nil => exact absurd h (by simp [findRefExprInstrs])
  | cons i rest ih =>
      cases i with
      | debugRef ex pp x =>
          simp only [findRefExprInstrs] at h
          by_cases hex : ex = e
          · rw [if_pos hex] at h
            injection h with hxv
            subst hxv
            subst hex
            exact ⟨pp, List.mem_cons_self _ _⟩
          · rw [if_neg hex] at h
            obtain ⟨p, hp⟩ := ih h
            exact ⟨p, List.mem_cons_of_mem _ hp⟩
      | other =>
          simp only [findRefExprInstrs] at h
          obtain ⟨p, hp⟩ := ih h
          exact ⟨p, List.mem_cons_of_mem _ hp⟩

theorem findRefExprInstrs_none {is : List Instr} {e : Expr}
    (h : ∀ p v, Instr.debugRef e p v ∉ is) :
    findRefExprInstrs is e = none := by
  induction is with
  | nil => rfl
  | cons i rest ih =>
      cases i with
      | debugRef ex pp x =>
          have hne : ex ≠ e := by
            intro he
            exact h pp x (by rw [← he]; exact List.mem_cons_self _ _)
          simp only [findRefExprInstrs, if_neg hne]
          exact ih (fun p v hp => h p v (List.mem_cons_of_mem _ hp))
      | other =>
          simp only [findRefExprInstrs]
          exact ih (fun p v hp => h p v (List.mem_cons_of_mem _ hp))

theorem findRefExprInstrs_isSome {is : List Instr} {e : Expr} {p : Pos}
    {v : Value} (h : Instr.debugRef e p v ∈ is) :
    (findRefExprInstrs is e).isSome = true := by
  induction is with
  | nil => simp at h
  | cons i rest ih =>
      cases i with
      | debugRef ex pp x =>
          by_cases hex : ex = e
          · simp only [findRefExprInstrs, if_pos hex]
            rfl
          · simp only [findRefExprInstrs, if_neg hex]
            rcases List.mem_cons.mp h with heq | hmem
            · injection heq with h₁ h₂ h₃
              exact absurd h₁.symm hex
            · exact ih hmem
      | other =>
          rcases List.mem_cons.mp h with heq | hmem
          · exact absurd heq (by simp)
          · simp only [findRefExprInstrs]
            exact ih hmem

theorem findRefExprBlocks_some {bs : List Block} {e : Expr} {v : Value}
    (h : findRefExprBlocks bs e = some v) :
    ∃ b ∈ bs, ∃ p, Instr.debugRef e p v ∈ b.instrs := by
  induction bs with
  | nil => exact absurd h (by simp [findRefExprBlocks])
  | cons b rest ih =>
      simp only [findRefExprBlocks] at h
      cases hb : findRefExprInstrs b.instrs e with
      | some w =>
          rw [hb] at h
          injection h with hwv
          subst hwv
          obtain ⟨p, hp⟩ := findRefExprInstrs_some hb
          exact ⟨b, List.mem_cons_self _ _, p, hp⟩
      | none =>
          rw [hb] at h
          obtain ⟨b₂, hb₂, p, hp⟩ := ih h
          exact ⟨b₂, List.mem_cons_of_mem _ hb₂, p, hp⟩

theorem findRefExprBlocks_none {bs : List Block} {e : Expr}
    (h : ∀ b ∈ bs, ∀ p v, Instr.debugRef e p v ∉ b.instrs) :
    findRefExprBlocks bs e = none := by
  induction bs with
  | nil => rfl
  | cons b rest ih =>
      simp only [findRefExprBlocks]
      rw [findRefExprInstrs_none (h b (List.mem_cons_self _ _))]
      exact ih (fun b₂ hb₂ => h b₂ (List.mem_cons_of_mem _ hb₂))

theorem findRefExprBlocks_isSome {bs : List Block} {e : Expr} {p : Pos}
    {v : Value} {b : Block} (hb : b ∈ bs)
    (h : Instr.debugRef e p v ∈ b.instrs) :
    (findRefExprBlocks bs e).isSome = true := by
  induction bs with
  | nil => simp at hb
  | cons b₀ rest ih =>
      simp only [findRefExprBlocks]
      rcases List.mem_cons.mp hb with heq | hmem
      · subst heq
        cases hf : findRefExprInstrs b.instrs e with
        | some w => rfl
        | none =>
            have := findRefExprInstrs_isSome h
            rw [hf] at this
            exact absurd this (by simp)
      · cases hf : findRefExprInstrs b₀.instrs e with
        | some w => rfl
        | none => exact ih hmem

/-- C4: without debug information `ValueForExpr` is always "not found";
with it, a found value is the `X` of a `DebugRef` of one of the function's
blocks whose expression pointer is the unparenthesized `e`, the result is
"not found" exactly when no such `DebugRef` exists, and it is found
whenever one exists. -/
theorem valueForExpr_characterization (f : Function) (e : Expr) :
    (f.debugInfo = false → f.ValueForExpr e = none) ∧
    (∀ v, f.ValueForExpr e = some v →
      f.debugInfo = true ∧
        ∃ b ∈ f.blocks, ∃ p, Instr.debugRef (unparen e) p v ∈ b.instrs) ∧
    ((∀ b ∈ f.blocks, ∀ p v, Instr.debugRef (unparen e) p v ∉ b.instrs) →
      f.ValueForExpr e = none) ∧
    (∀ b ∈ f.blocks, ∀ p v, f.debugInfo = true →
      Instr.debugRef (unparen e) p v ∈ b.instrs →
      (f.ValueForExpr e).isSome = true) := by
  cases hdbg : f.debugInfo with
  | false =>
      refine ⟨fun _ => ?_, fun v hv => ?_, fun _ => ?_,
        fun b hb p v hdt hmem => ?_⟩
      · simp [Function.ValueForExpr, hdbg]
      · simp [Function.ValueForExpr, hdbg] at hv
      · simp [Function.ValueForExpr, hdbg]
      · simp at hdt
  | true =>
      refine ⟨fun hf => ?_, fun v hv => ?_, fun hnone => ?_,
        fun b hb p v _ hmem => ?_⟩
      · exact absurd hf (by simp)
      · simp only [Function.ValueForExpr, hdbg, if_true] at hv
        exact ⟨rfl, findRefExprBlocks_some hv⟩
      · simp only [Function.ValueForExpr, hdbg, if_true]
        exact findRefExprBlocks_none hnone
      · simp only [Function.ValueForExpr, hdbg, if_true]
        exact findRefExprBlocks_isSome hb hmem

theorem unparen_paren (e : Expr) : unparen (Expr.paren e) = unparen e := rfl

theorem unparen_iterate (k : Nat) (e : Expr) :
    unparen (Expr.paren^[k] e) = unparen e := by
  induction k with
  | zero => rfl
  | succ n ih => rw [Function.iterate_succ_apply', unparen_paren, ih]

/-- C5: `ValueForExpr` is invariant under wrapping its expression in any
number of parenthesis nodes. -/
theorem valueForExpr_paren_invariant (f : Function) (e : Expr) (k : Nat) :
    f.ValueForExpr (Expr.paren^[k] e) = f.ValueForExpr e := by
  unfold Function.ValueForExpr
  rw [unparen_iterate]

/-- C6: `ConstValue` never returns "not found": universal constants and
constants missing from their owning package's value table get a freshly
synthesized `Const` from the object's literal and type; a package-level
constant found in a built package's table returns the cached `Const`; and
whenever the table is well-formed for the object the result exists. -/
theorem constValue_never_not_found (prog : Program) (obj : ConstObj) :
    (obj.inUniverse = true →
      prog.ConstValue obj = some (NewConst obj.val obj.ty)) ∧
    (prog.packageLevelValue obj.pkgId obj.objId = none →
      prog.ConstValue obj = some (NewConst obj.val obj.ty)) ∧
    (∀ c, obj.inUniverse = false →
      prog.packageLevelValue obj.pkgId obj.objId = some (Value.const c) →
      prog.ConstValue obj = some c) ∧
    ((∀ v, prog.packageLevelValue obj.pkgId obj.objId = some v →
        ∃ c, v = Value.const c) →
      ∃ c, prog.ConstValue obj = some c) := by
  unfold Program.ConstValue
  cases hu : obj.inUniverse with
  | true =>
      refine ⟨fun _ => by simp, fun _ => by simp, fun c hc => ?_, fun _ => ?_⟩
      · exact absurd hc (by simp)
      · exact ⟨NewConst obj.val obj.ty, by simp⟩
  | false =>
      simp only [Bool.false_eq_true, if_false]
      cases hpl : prog.packageLevelValue obj.pkgId obj.objId with
      | none =>
          refine ⟨fun hc => absurd hc (by simp), fun _ => rfl,
            fun c _ hc => absurd hc (by simp), fun _ => ?_⟩
          exact ⟨NewConst obj.val obj.ty, rfl⟩
      | some v =>
          cases v with
          | const c =>
              refine ⟨fun hc => absurd hc (by simp),
                fun hc => absurd hc (by simp), fun c₂ _ hc => ?_, fun _ => ?_⟩
              · injection hc with hvc
                injection hvc with hcc
                rw [hcc]
              · exact ⟨c, rfl⟩
          | global g =>
              refine ⟨fun hc => absurd hc (by simp),
                fun hc => absurd hc (by simp), fun c₂ _ hc => ?_, fun hwf => ?_⟩
              · injection hc with hvc
                exact absurd hvc (by simp)
              · obtain ⟨c, hc⟩ := hwf _ rfl
                exact absurd hc (by simp)
          | function g =>
              refine ⟨fun hc => absurd hc (by simp),
                fun hc => absurd hc (by simp), fun c₂ _ hc => ?_, fun hwf => ?_⟩
              · injection hc with hvc
                exact absurd hvc (by simp)
              · obtain ⟨c, hc⟩ := hwf _ rfl
                exact absurd hc (by simp)
          | builtin g =>
              refine ⟨fun hc => absurd hc (by simp),
                fun hc => absurd hc (by simp), fun c₂ _ hc => ?_, fun hwf => ?_⟩
              · injection hc with hvc
                exact absurd hvc (by simp)
              · obtain ⟨c, hc⟩ := hwf _ rfl
                exact absurd hc (by simp)
          | param g =>
              refine ⟨fun hc => absurd hc (by simp),
                fun hc => absurd hc (by simp), fun c₂ _ hc => ?_, fun hwf => ?_⟩
              · injection hc with hvc
                exact absurd hvc (by simp)
              · obtain ⟨c, hc⟩ := hwf _ rfl
                exact absurd hc (by simp)
          | instrVal g =>
              refine ⟨fun hc => absurd hc (by simp),
                fun hc => absurd hc (by simp), fun c₂ _ hc => ?_, fun hwf => ?_⟩
              · injection hc with hvc
                exact absurd hvc (by simp)
              · obtain ⟨c, hc⟩ := hwf _ rfl
                exact absurd hc (by simp)

/-- C9: `FuncValue` is total: a universal built-in returns its table
entry; otherwise a cached package-level value is returned when present;
otherwise the receiver type's method-set binding is resolved; and the
result is "not found" exactly when none of the three bindings exists. -/
theorem funcValue_total (prog : Program) (obj : FuncObj) :
    (∀ v, prog.builtins.lookup obj.objId = some v →
      prog.FuncValue obj = some v) ∧
    (prog.builtins.lookup obj.objId = none →
      ∀ v, prog.packageLevelValue obj.pkgId obj.objId = some v →
        prog.FuncValue obj = some v) ∧
    (prog.builtins.lookup obj.objId = none →
      prog.packageLevelValue obj.pkgId obj.objId = none →
      ∀ b, msetLookup (prog.methodSetOf obj.recvTy) obj.pkgId obj.name =
          some b →
        prog.FuncValue obj = some b.fn) ∧
    (prog.FuncValue obj = none ↔
      prog.builtins.lookup obj.objId = none ∧
      prog.packageLevelValue obj.pkgId obj.objId = none ∧
      msetLookup (prog.methodSetOf obj.recvTy) obj.pkgId obj.name = none) := by
  unfold Program.FuncValue Program.Method
  cases hb : prog.builtins.lookup obj.objId with
  | some v =>
      refine ⟨fun w hw => ?_, fun hc => absurd hc (by simp),
        fun hc => absurd hc (by simp), by simp⟩
      injection hw with hvw
      rw [hvw]
  | none =>
      cases hpl : prog.packageLevelValue obj.pkgId obj.objId with
      | some v =>
          refine ⟨fun w hw => absurd hw (by simp), fun _ w hw => ?_,
            fun _ hc => absurd hc (by simp), by simp⟩
          injection hw with hvw
          rw [hvw]
      | none =>
          cases hm : msetLookup (prog.methodSetOf obj.recvTy) obj.pkgId
              obj.name with
          | some b =>
              refine ⟨fun w hw => absurd hw (by simp),
                fun _ w hw => absurd hw (by simp), fun _ _ b₂ hb₂ => ?_,
                by simp⟩
              injection hb₂ with hbb
              rw [hbb]
              rfl
          | none =>
              exact ⟨fun w hw => absurd hw (by simp),
                fun _ w hw => absurd hw (by simp),
                fun _ _ b₂ hb₂ => absurd hb₂ (by simp), by simp⟩

/-- C7 counterexample: for the non-package-level variable `objLocal` and
the nonempty chain `refBad` (whose head is a function literal, not an
identifier), `EnclosingFunction` returns "not found" but `VarValue`
faults instead of returning "not found". -/
theorem varValue_fault_cex :
    Program.packageLevelValue progEmpty objLocal.pkgId objLocal.objId =
        none ∧
    EnclosingFunction pkgEmpty refBad = none ∧
    Program.VarValue progEmpty objLocal pkgEmpty refBad =
      Except.error () := by
  exact ⟨rfl, rfl, rfl⟩

/-- C7 amended: for a chain whose head is an identifier, a
non-package-level variable whose enclosing function is "not found" makes
`VarValue` return "not found" without a fault. -/
theorem varValue_absence_propagates (prog : Program) (obj : VarObj)
    (pkg : Package) (ref : List Node) (p : Pos) (rest : List Node)
    (href : ref = Node.ident p :: rest)
    (hpl : prog.packageLevelValue obj.pkgId obj.objId = none)
    (henc : EnclosingFunction pkg ref = none) :
    prog.VarValue obj pkg ref = Except.ok none := by
  subst href
  unfold Program.VarValue
  rw [hpl, henc]

/-- C7 witness: the local variable `objLocal` with an identifier-headed
chain that has no enclosing function propagates "not found". -/
theorem varValue_absence_propagates_witness :
    Program.VarValue progEmpty objLocal pkgEmpty
        [Node.ident 31, Node.file] = Except.ok none :=
  varValue_absence_propagates progEmpty objLocal pkgEmpty
    [Node.ident 31, Node.file] 31 [Node.file] rfl rfl rfl

/-- C10: `VarValue` faults whenever the reference chain is empty or its
head is not an identifier, before any lookup happens. -/
theorem varValue_requires_ident_head (prog : Program) (obj : VarObj)
    (pkg : Package) (ref : List Node)
    (h : ∀ p rest, ref ≠ Node.ident p :: rest) :
    prog.VarValue obj pkg ref = Except.error () := by
  cases ref with
  | nil => rfl
  | cons hd tl =>
      cases hd
      case ident p => exact absurd rfl (h p tl)
      all_goals rfl

/-- C10 witness: even for the package-level variable `objGlobal`, whose
value table entry exists, `VarValue` on the empty chain faults. -/
theorem varValue_requires_ident_head_witness :
    Program.packageLevelValue progBuilt objGlobal.pkgId objGlobal.objId =
        some (Value.global 6) ∧
    Program.VarValue progBuilt objGlobal pkgBuilt [] = Except.error () :=
  ⟨rfl, varValue_requires_ident_head progBuilt objGlobal pkgBuilt []
    (fun _ _ h => List.noConfusion h)⟩

theorem findNamedFunc_go_spec (pkg : Package) (pos : Pos) (f : Function) :
    ∀ ms : List Member, findNamedFunc.go pkg pos ms = some f →
      (Member.function f ∈ ms ∧ f.pos = pos) ∨
      ∃ t o, Member.type t ∈ ms ∧ o ∈ t.methodSet ∧ o.pos = pos ∧
        pkg.values.lookup o.objId = some (Value.function f) := by
  intro ms
  induction ms with
  | nil => intro h; exact absurd h (by simp [findNamedFunc.go])
  | cons m rest ih =>
      intro h
      cases m with
      | function g =>
          simp only [findNamedFunc.go] at h
          by_cases hgp : g.pos = pos
          · rw [if_pos hgp] at h
            injection h with hgf
            subst hgf
            exact Or.inl ⟨List.mem_cons_self _ _, hgp⟩
          · rw [if_neg hgp] at h
            rcases ih h with ⟨hm, hp⟩ | ⟨t, o, hmt, ho, hop, hl⟩
            · exact Or.inl ⟨List.mem_cons_of_mem _ hm, hp⟩
            · exact Or.inr ⟨t, o, List.mem_cons_of_mem _ hmt, ho, hop, hl⟩
      | type t =>
          simp only [findNamedFunc.go] at h
          cases hfind : t.methodSet.find? (fun o => o.pos == pos) with
          | some o =>
              rw [hfind] at h
              have h₂ :
                  (match pkg.values.lookup o.objId with
                    | some (Value.function g) => some g
                    | _ => none) = some f := h
              clear h
              cases hlook : pkg.values.lookup o.objId with
              | none =>
                  rw [hlook] at h₂
                  exact Option.noConfusion h₂
              | some v =>
                  rw [hlook] at h₂
                  cases v with
                  | function g =>
                      injection h₂ with hgf
                      subst hgf
                      exact Or.inr ⟨t, o, List.mem_cons_self _ _,
                        List.mem_of_find?_eq_some hfind,
                        by simpa using List.find?_some hfind, hlook⟩
                  | const c => exact Option.noConfusion h₂
                  | global g => exact Option.noConfusion h₂
                  | builtin g => exact Option.noConfusion h₂
                  | param g => exact Option.noConfusion h₂
                  | instrVal g => exact Option.noConfusion h₂
          | none =>
              rw [hfind] at h
              rcases ih h with ⟨hm, hp⟩ | ⟨t₂, o, hmt, ho, hop, hl⟩
              · exact Or.inl ⟨List.mem_cons_of_mem _ hm, hp⟩
              · exact Or.inr ⟨t₂, o, List.mem_cons_of_mem _ hmt, ho, hop, hl⟩
      | other =>
          simp only [findNamedFunc.go] at h
          rcases ih h with ⟨hm, hp⟩ | ⟨t, o, hmt, ho, hop, hl⟩
          · exact Or.inl ⟨List.mem_cons_of_mem _ hm, hp⟩
          · exact Or.inr ⟨t, o, List.mem_cons_of_mem _ hmt, ho, hop, hl⟩

/-- C8: a chain under a declaration with a receiver, resolved to a
function, resolved it through a type member's pointer method set at the
declared name's position and through the package's value table — under the
invariants that no package-level function member sits at that position and
that the value table holds only non-synthetic functions, the result is the
declared method, never a synthesized wrapper. -/
theorem stepA_resolves_declared_method (pkg : Package) (chain : List Node)
    (name : String) (p : Pos) (rest : List Node) (rt : Node)
    (hshape : chain.reverse = rt :: Node.funcDecl true name p :: rest)
    (hmem : ∀ g, Member.function g ∈ pkg.members → g.pos ≠ p)
    (hvals : ∀ o v, pkg.values.lookup o = some v →
      ∀ g, v = Value.function g → g.synthetic = false)
    (f : Function)
    (hres : findEnclosingPackageLevelFunction pkg chain = some f) :
    f.synthetic = false ∧
    ∃ t o, Member.type t ∈ pkg.members ∧ o ∈ t.methodSet ∧ o.pos = p ∧
      pkg.values.lookup o.objId = some (Value.function f) := by
  unfold findEnclosingPackageLevelFunction at hres
  rw [hshape] at hres
  have hni : ¬(true = false ∧ name = "init") := by simp
  have hres₂ :
      (if true = false ∧ name = "init" then some pkg.init
        else findNamedFunc pkg p) = some f := hres
  rw [if_neg hni] at hres₂
  have hchar := findNamedFunc_go_spec pkg p f pkg.members hres₂
  rcases hchar with ⟨hm, hp⟩ | ⟨t, o, hmt, ho, hop, hl⟩
  · exact absurd hp (hmem f hm)
  · exact ⟨hvals o.objId _ hl f rfl, t, o, hmt, ho, hop, hl⟩

/-- C8 witness: in `pkgMeth`, the chain under the method declaration of
`m` (with receiver) at position 50 resolves to the declared, non-synthetic
`methFnW` through the type member's method set and the value table. -/
theorem stepA_resolves_declared_method_witness :
    Function.synthetic methFnW = false ∧
    ∃ t o, Member.type t ∈ pkgMeth.members ∧ o ∈ t.methodSet ∧
      o.pos = 50 ∧
      pkgMeth.values.lookup o.objId = some (Value.function methFnW) :=
  stepA_resolves_declared_method pkgMeth chainMeth "m" 50 [Node.other]
    Node.file rfl
    (by intro g hg; simp [pkgMeth] at hg)
    (by
      intro o v hv g hg
      subst hg
      cases h40 : (o == (40 : Nat)) with
      | true =>
          simp [pkgMeth, List.lookup, h40] at hv
          rw [← hv]
          rfl
      | false =>
          simp [pkgMeth, List.lookup, h40] at hv)
    methFnW rfl

end SsaSource
